import Mathlib

/-!
# Transfer lifecycle tracker — verification of the event-sourced core

Shallow embedding of the money-transfer lifecycle tracker:
* the data model (`TransferEvent`, `Warning`, `Transfer`),
* the pure state deriver `computeTransferState` (src/domain/status.ts),
* the anomaly detector `detectAnomalies` and its four rules
  (src/domain/anomalies.ts),
* the in-memory store `MemoryStore` with `addEvent`, `recomputeTransfer`,
  `getVersion`, `getAffectedTransferIds` (src/store/memory.ts).

Modelling conventions:
* JavaScript `Map`s become insertion-ordered association lists
  (`Map.set` updates in place or appends; lookups are `mapLookup`);
  JavaScript `Set`s become duplicate-free lists with append-on-add.
* ISO timestamps are modelled by their epoch-millisecond value
  (`timestamp : Int`), since the validation collaborator guarantees every
  timestamp parses to an instant; `localeCompare` on `event_id` is modelled
  by the lexicographic order on `String`.
* `Array.prototype.sort` (stable, ES2019) with the
  `(timestamp, event_id)` comparator is modelled by the stable
  `List.insertionSort` on the reflexive relation `eventLE`.
* the `throw` on an empty event list in `computeTransferState` makes the
  function fallible: it returns `Option Transfer`, `none` exactly on the
  empty input that would have thrown.
-/

/-- An inbound lifecycle event (src/types.ts `TransferEvent`).
`arrival_order` is attached by the store at acceptance time. -/
structure TransferEvent where
  transfer_id : String
  event_id : String
  status : String
  timestamp : Int
  reason : Option String := none
  arrival_order : Nat := 0
deriving Repr, DecidableEq

/-- A data-quality warning (src/types.ts `Warning`). -/
structure Warning where
  type : String
  message : String
  event_ids : List String
deriving Repr, DecidableEq

/-- The derived transfer state (src/types.ts `Transfer`). -/
structure Transfer where
  transfer_id : String
  current_status : String
  is_terminal : Bool
  has_warnings : Bool
  last_updated : Int
  event_count : Nat
  warnings : List Warning
  events : List TransferEvent
  rejected_duplicates : List String
deriving Repr, DecidableEq

/-- src/constants.ts: `TERMINAL_STATUSES = ["settled", "failed"]`. -/
def TERMINAL_STATUSES : List String := ["settled", "failed"]

/-- The comparator of `computeTransferState` as a reflexive relation:
`a` sorts no later than `b` when `a.timestamp < b.timestamp`, or the
timestamps tie and `a.event_id` is lexicographically no greater. -/
def eventLE (a b : TransferEvent) : Prop :=
  a.timestamp < b.timestamp ∨ (a.timestamp = b.timestamp ∧ a.event_id ≤ b.event_id)

instance : DecidableRel eventLE := fun a b => by
  unfold eventLE; infer_instance

instance : IsTotal TransferEvent eventLE where
  total a b := by
    rcases lt_trichotomy a.timestamp b.timestamp with h | h | h
    · exact Or.inl (Or.inl h)
    · rcases le_total a.event_id b.event_id with h' | h'
      · exact Or.inl (Or.inr ⟨h, h'⟩)
      · exact Or.inr (Or.inr ⟨h.symm, h'⟩)
    · exact Or.inr (Or.inl h)

instance : IsTrans TransferEvent eventLE where
  trans a b c hab hbc := by
    rcases hab with h1 | ⟨h1, h1'⟩
    · rcases hbc with h2 | ⟨h2, _⟩
      · exact Or.inl (h1.trans h2)
      · exact Or.inl (h2 ▸ h1)
    · rcases hbc with h2 | ⟨h2, h2'⟩
      · exact Or.inl (h1 ▸ h2)
      · exact Or.inr ⟨h1.trans h2, h1'.trans h2'⟩

instance : IsRefl TransferEvent eventLE where
  refl _ := Or.inr ⟨rfl, le_refl _⟩

/-- `[...events].sort((a, b) => ...)` in `computeTransferState`: stable sort
by `(timestamp, event_id)` ascending. -/
def sortEvents (events : List TransferEvent) : List TransferEvent :=
  List.insertionSort eventLE events

-- ─── JavaScript collections as insertion-ordered association lists ───

/-- `Map.get`: the value at the first (only, keys being unique) matching key. -/
def mapLookup {α : Type} (m : List (String × α)) (k : String) : Option α :=
  match m with
  | [] => none
  | (k', v) :: rest => if k' = k then some v else mapLookup rest k

/-- `Map.set`: replace the value at an existing key in place, else append. -/
def mapSet {α : Type} (m : List (String × α)) (k : String) (v : α) :
    List (String × α) :=
  match m with
  | [] => [(k, v)]
  | (k', v') :: rest => if k' = k then (k, v) :: rest else (k', v') :: mapSet rest k v

/-- `Set.add`: append the element unless already present. -/
def setAdd (s : List String) (x : String) : List String :=
  if x ∈ s then s else s ++ [x]

-- ─── Anomaly Detection (src/domain/anomalies.ts) ───

/-- The `for` loop locating the first terminal-status event: returns that
event together with the events after it, or `none` if no event has a
terminal status. -/
def findFirstTerminal : List TransferEvent → Option (TransferEvent × List TransferEvent)
  | [] => none
  | e :: es =>
    if TERMINAL_STATUSES.contains e.status then some (e, es)
    else findFirstTerminal es

/-- `checkEventAfterTerminal`: flag events after the first terminal event
whose timestamp is strictly later than the terminal event's. -/
def checkEventAfterTerminal (events : List TransferEvent) : List Warning :=
  match findFirstTerminal events with
  | none => []
  | some (terminalEvent, rest) =>
    let afterTerminalEvents := rest.filter fun e => terminalEvent.timestamp < e.timestamp
    if afterTerminalEvents.isEmpty then []
    else
      [{ type := "event_after_terminal"
         message := "Activity detected after transfer reached terminal state (" ++
           terminalEvent.status ++ ")"
         event_ids := afterTerminalEvents.map fun e => e.event_id }]

/-- `checkConflictingTerminals`: if both `settled` and `failed` appear, flag
all events carrying either status (settled ones first, as in the source). -/
def checkConflictingTerminals (events : List TransferEvent) : List Warning :=
  let hasSettled := events.any fun e => e.status == "settled"
  let hasFailed := events.any fun e => e.status == "failed"
  if hasSettled && hasFailed then
    let settledEvents := events.filter fun e => e.status == "settled"
    let failedEvents := events.filter fun e => e.status == "failed"
    [{ type := "conflicting_terminals"
       message := "Both settled and failed states received"
       event_ids := (settledEvents.map fun e => e.event_id) ++
         (failedEvents.map fun e => e.event_id) }]
  else []

/-- `checkMissingInitiated`: if no event has status `initiated`, flag the
entire (non-empty) event set. -/
def checkMissingInitiated (events : List TransferEvent) : List Warning :=
  let hasInitiated := events.any fun e => e.status == "initiated"
  if !hasInitiated && !events.isEmpty then
    [{ type := "missing_initiated"
       message := "No initiated event found in transfer history"
       event_ids := events.map fun e => e.event_id }]
  else []

/-- The `Map`-based grouping of `checkDuplicateStatus`: an association list
from status to the events carrying it, keys in first-occurrence order,
each group in original order. -/
def groupByStatusStep (groups : List (String × List TransferEvent))
    (e : TransferEvent) : List (String × List TransferEvent) :=
  match mapLookup groups e.status with
  | some g => mapSet groups e.status (g ++ [e])
  | none => mapSet groups e.status [e]

def groupByStatus (events : List TransferEvent) : List (String × List TransferEvent) :=
  events.foldl groupByStatusStep []

/-- `checkDuplicateStatus`: any status group with more than one event is
flagged, listing every event_id in the group. -/
def checkDuplicateStatus (events : List TransferEvent) : List Warning :=
  (groupByStatus events).filterMap fun p =>
    if 1 < p.2.length then
      some { type := "duplicate_status"
             message := "Multiple events report status \"" ++ p.1 ++ "\""
             event_ids := p.2.map fun e => e.event_id }
    else none

/-- `detectAnomalies`: run the four rules, concatenating their warnings. -/
def detectAnomalies (events : List TransferEvent) : List Warning :=
  checkEventAfterTerminal events ++ checkConflictingTerminals events ++
    checkMissingInitiated events ++ checkDuplicateStatus events

-- ─── Status Computation (src/domain/status.ts) ───

/-- `computeTransferState(transferId, events, rejectedDuplicates)`: sort the
events by `(timestamp, event_id)`, derive status from the last sorted
element, detect anomalies, and attach the rejected-duplicates diagnostic.
Returns `none` exactly on the empty event list (the source `throw`s there).

The sorting and derivation follow the `computeTransferState` shipped in the
repository; the third parameter and the `rejected_duplicates` field of the
result are modelled from the spec (§3) and the call sites in
src/store/memory.ts, the revision of src/domain/status.ts carrying them
not being among the provided sources. -/
def computeTransferState (transferId : String) (events : List TransferEvent)
    (rejectedDuplicates : List String) : Option Transfer :=
  -- `none` on the empty input, on which the source `throw`s; otherwise the
  -- value built from the last element of the sorted history
  (sortEvents events).getLast?.map fun lastEvent =>
      { transfer_id := transferId
        current_status := lastEvent.status
        is_terminal := TERMINAL_STATUSES.contains lastEvent.status
        has_warnings := !(detectAnomalies (sortEvents events)).isEmpty
        last_updated := lastEvent.timestamp
        event_count := events.length
        warnings := detectAnomalies (sortEvents events)
        events := sortEvents events
        rejected_duplicates := rejectedDuplicates }

-- ─── In-Memory Store (src/store/memory.ts) ───

/-- Result of `MemoryStore.addEvent`. -/
structure AddEventResult where
  isDuplicate : Bool
  transfer : Option Transfer
deriving Repr, DecidableEq

/-- The fields of `MemoryStore`. -/
structure MemoryStore where
  events : List (String × List TransferEvent)
  transfers : List (String × Transfer)
  seenEventIds : List (String × List String)
  arrivalOrderCounters : List (String × Nat)
  rejectedDuplicates : List (String × List String)
  version : Nat
  affectedTransferIds : List String
deriving Repr, DecidableEq

/-- A freshly constructed `MemoryStore` (all maps empty, version 0). -/
def emptyStore : MemoryStore :=
  { events := [], transfers := [], seenEventIds := [], arrivalOrderCounters := []
    rejectedDuplicates := [], version := 0, affectedTransferIds := [] }

/-- `getRejectedDuplicates`: the recorded duplicates for a transfer, `[]`
when absent. -/
def getRejectedDuplicates (s : MemoryStore) (transferId : String) : List String :=
  (mapLookup s.rejectedDuplicates transferId).getD []

/-- `MemoryStore.addEvent`, step for step from the source. Returns the
`AddEventResult` and the post-call store. -/
def addEvent (event : TransferEvent) (s : MemoryStore) : AddEventResult × MemoryStore :=
  let transfer_id := event.transfer_id
  let event_id := event.event_id
  -- if (!this.seenEventIds.has(transfer_id)) this.seenEventIds.set(transfer_id, new Set())
  let s :=
    if (mapLookup s.seenEventIds transfer_id).isNone then
      { s with seenEventIds := mapSet s.seenEventIds transfer_id [] }
    else s
  let seenIds := (mapLookup s.seenEventIds transfer_id).getD []
  if event_id ∈ seenIds then
    -- Duplicate — record it and return existing transfer state
    let s :=
      if (mapLookup s.rejectedDuplicates transfer_id).isNone then
        { s with rejectedDuplicates := mapSet s.rejectedDuplicates transfer_id [] }
      else s
    let rejected := (mapLookup s.rejectedDuplicates transfer_id).getD []
    if event_id ∈ rejected then
      ({ isDuplicate := true, transfer := mapLookup s.transfers transfer_id }, s)
    else
      let rejected := rejected ++ [event_id]
      let s := { s with rejectedDuplicates := mapSet s.rejectedDuplicates transfer_id rejected }
      -- Update the transfer state to include the new rejected duplicate.
      -- Note: version and affectedTransferIds are NOT updated for duplicates.
      let s :=
        match mapLookup s.transfers transfer_id with
        | some existingTransfer =>
          let updatedTransfer := { existingTransfer with rejected_duplicates := rejected }
          { s with transfers := mapSet s.transfers transfer_id updatedTransfer }
        | none => s
      ({ isDuplicate := true, transfer := mapLookup s.transfers transfer_id }, s)
  else
    -- New event — add to store
    let s := { s with seenEventIds := mapSet s.seenEventIds transfer_id (seenIds ++ [event_id]) }
    let s :=
      if (mapLookup s.events transfer_id).isNone then
        { s with events := mapSet s.events transfer_id []
                 arrivalOrderCounters := mapSet s.arrivalOrderCounters transfer_id 0 }
      else s
    -- Track arrival order (increment counter for this transfer)
    let arrivalOrder := (mapLookup s.arrivalOrderCounters transfer_id).getD 0 + 1
    let s := { s with arrivalOrderCounters := mapSet s.arrivalOrderCounters transfer_id arrivalOrder }
    let eventWithMetadata := { event with arrival_order := arrivalOrder }
    let grownLog := ((mapLookup s.events transfer_id).getD []) ++ [eventWithMetadata]
    let s := { s with events := mapSet s.events transfer_id grownLog }
    -- Recompute transfer state
    let allEvents := (mapLookup s.events transfer_id).getD []
    match computeTransferState transfer_id allEvents (getRejectedDuplicates s transfer_id) with
    | some transfer =>
      ({ isDuplicate := false, transfer := some transfer },
       { s with transfers := mapSet s.transfers transfer_id transfer
                version := s.version + 1
                affectedTransferIds := setAdd s.affectedTransferIds transfer_id })
    | none =>
      -- unreachable: `allEvents` ends in `eventWithMetadata`, so
      -- `computeTransferState` cannot take its empty-input branch here
      ({ isDuplicate := false, transfer := none }, s)

/-- `getTransfer`: the cached derived state for an identifier. -/
def getTransfer (s : MemoryStore) (transferId : String) : Option Transfer :=
  mapLookup s.transfers transferId

/-- `getVersion`: the current version counter. -/
def getVersion (s : MemoryStore) : Nat :=
  s.version

/-- `getAffectedTransferIds`: return the affected identifiers accumulated
since the last call and clear the set (drain-on-read). -/
def getAffectedTransferIds (s : MemoryStore) : List String × MemoryStore :=
  (s.affectedTransferIds, { s with affectedTransferIds := [] })

/-- `recomputeTransfer`: re-derive a transfer from its stored event history;
`none` (and no state change) when the identifier has no events. -/
def recomputeTransfer (transferId : String) (s : MemoryStore) :
    Option Transfer × MemoryStore :=
  let events := (mapLookup s.events transferId).getD []
  if events.isEmpty then (none, s)
  else
    match computeTransferState transferId events (getRejectedDuplicates s transferId) with
    | some transfer =>
      (some transfer,
       { s with transfers := mapSet s.transfers transferId transfer
                version := s.version + 1
                affectedTransferIds := setAdd s.affectedTransferIds transferId })
    | none =>
      -- unreachable: guarded by the isEmpty test above
      (none, s)

/-- Submit a list of events to the store in order, keeping the final state. -/
def submitAll : List TransferEvent → MemoryStore → MemoryStore
  | [], s => s
  | e :: es, s => submitAll es (addEvent e s).2

-- ─── Lemmas: association-list operations ───

theorem mapLookup_mapSet_self {α : Type} (m : List (String × α)) (k : String) (v : α) :
    mapLookup (mapSet m k v) k = some v := by
  induction m with
  | nil => simp [mapLookup, mapSet]
  | cons p rest ih =>
    by_cases h : p.1 = k
    · simp [mapLookup, mapSet, h]
    · simpa [mapLookup, mapSet, h] using ih

theorem mapLookup_mapSet_ne {α : Type} (m : List (String × α)) (k k' : String) (v : α)
    (h : k ≠ k') : mapLookup (mapSet m k v) k' = mapLookup m k' := by
  induction m with
  | nil => simp [mapLookup, mapSet, h]
  | cons p rest ih =>
    by_cases hp : p.1 = k
    · simp [mapLookup, mapSet, hp, h]
    · simp [mapLookup, mapSet, hp]
      split <;> simp_all [mapLookup]

theorem mapLookup_mapSet {α : Type} (m : List (String × α)) (k k' : String) (v : α) :
    mapLookup (mapSet m k v) k' = if k = k' then some v else mapLookup m k' := by
  split
  · next h => subst h; exact mapLookup_mapSet_self m k v
  · next h => exact mapLookup_mapSet_ne m k k' v h

theorem mem_of_mapLookup_eq_some {α : Type} {m : List (String × α)} {k : String} {v : α}
    (h : mapLookup m k = some v) : (k, v) ∈ m := by
  induction m with
  | nil => simp [mapLookup] at h
  | cons p rest ih =>
    obtain ⟨pk, pv⟩ := p
    by_cases hp : pk = k
    · subst hp
      simp [mapLookup] at h
      subst h
      exact List.mem_cons_self _ _
    · simp only [mapLookup, hp, if_neg, not_false_iff] at h
      exact List.mem_cons_of_mem _ (ih h)

/-- Keys of an association list. -/
def mapKeys {α : Type} (m : List (String × α)) : List String :=
  m.map Prod.fst

theorem mapLookup_of_mem_nodupKeys {α : Type} {m : List (String × α)} {p : String × α}
    (hnd : (mapKeys m).Nodup) (hmem : p ∈ m) : mapLookup m p.1 = some p.2 := by
  induction m with
  | nil => simp at hmem
  | cons q rest ih =>
    simp only [mapKeys, List.map_cons, List.nodup_cons] at hnd
    rcases List.mem_cons.1 hmem with h | h
    · subst h; simp [mapLookup]
    · have hne : q.1 ≠ p.1 := by
        intro he
        exact hnd.1 (he ▸ List.mem_map_of_mem Prod.fst h)
      simpa [mapLookup, hne] using ih hnd.2 h

theorem mapKeys_mapSet {α : Type} (m : List (String × α)) (k : String) (v : α) :
    mapKeys (mapSet m k v) = if k ∈ mapKeys m then mapKeys m else mapKeys m ++ [k] := by
  induction m with
  | nil => simp [mapKeys, mapSet]
  | cons p rest ih =>
    by_cases hp : p.1 = k
    · simp [mapKeys, mapSet, hp]
    · have : ¬k = p.1 := fun he => hp he.symm
      simp only [mapKeys, mapSet, hp, if_neg, not_false_iff, List.map_cons,
        List.mem_cons, this, false_or] at ih ⊢
      rw [ih]
      split <;> simp

theorem nodup_mapKeys_mapSet {α : Type} (m : List (String × α)) (k : String) (v : α)
    (h : (mapKeys m).Nodup) : (mapKeys (mapSet m k v)).Nodup := by
  rw [mapKeys_mapSet]
  split
  · exact h
  · next hk => simpa [List.nodup_append, h] using hk

-- ─── Lemmas: sorting ───

theorem sortEvents_sorted (l : List TransferEvent) : List.Sorted eventLE (sortEvents l) :=
  List.sorted_insertionSort eventLE l

theorem sortEvents_perm (l : List TransferEvent) : List.Perm (sortEvents l) l :=
  List.perm_insertionSort eventLE l

theorem sortEvents_length (l : List TransferEvent) : (sortEvents l).length = l.length :=
  (sortEvents_perm l).length_eq

theorem sortEvents_eq_nil_iff (l : List TransferEvent) : sortEvents l = [] ↔ l = [] := by
  constructor
  · intro h
    have := sortEvents_length l
    rw [h] at this
    exact List.length_eq_zero.1 this.symm
  · intro h; subst h; rfl

theorem mem_of_getLast?_eq_some {α : Type} {l : List α} {y : α}
    (h : l.getLast? = some y) : y ∈ l := by
  induction l with
  | nil => simp at h
  | cons a t ih =>
    cases t with
    | nil => simp_all [List.getLast?]
    | cons b u =>
      rw [List.getLast?_cons_cons] at h
      exact List.mem_cons_of_mem _ (ih h)

theorem getLast?_eq_none_iff {α : Type} {l : List α} : l.getLast? = none ↔ l = [] := by
  cases l with
  | nil => simp
  | cons a t =>
    simp only [iff_false, reduceCtorEq]
    intro h
    exact absurd h (by
      cases hl : (a :: t).getLast? with
      | none =>
        have : a :: t ≠ [] := by simp
        rw [List.getLast?_eq_getLast_of_ne_nil this] at hl
        simp at hl
      | some y => simp [hl])

/-- In a list sorted by `eventLE`, every element is the last one or relates
to it by `eventLE`. -/
theorem sorted_rel_getLast? {l : List TransferEvent} {y : TransferEvent}
    (hs : List.Sorted eventLE l) (hy : l.getLast? = some y) :
    ∀ x ∈ l, x = y ∨ eventLE x y := by
  induction l with
  | nil => simp
  | cons a t ih =>
    intro x hx
    cases t with
    | nil =>
      simp only [List.getLast?_singleton, Option.some.injEq] at hy
      simp only [List.mem_singleton] at hx
      exact Or.inl (hx.trans hy)
    | cons b u =>
      rw [List.getLast?_cons_cons] at hy
      rcases List.mem_cons.1 hx with hxa | hxt
      · subst hxa
        have hyin : y ∈ b :: u := mem_of_getLast?_eq_some hy
        exact Or.inr ((List.sorted_cons.1 hs).1 y hyin)
      · exact ih (List.sorted_cons.1 hs).2 hy x hxt

-- ─── Lemmas: computeTransferState ───

theorem computeTransferState_eq_none_iff (t : String) (evs : List TransferEvent)
    (r : List String) : computeTransferState t evs r = none ↔ evs = [] := by
  unfold computeTransferState
  rw [Option.map_eq_none']
  rw [getLast?_eq_none_iff, sortEvents_eq_nil_iff]

theorem computeTransferState_isSome {t : String} {evs : List TransferEvent}
    {r : List String} (h : evs ≠ []) : ∃ tr, computeTransferState t evs r = some tr := by
  cases hc : computeTransferState t evs r with
  | none => exact absurd ((computeTransferState_eq_none_iff t evs r).1 hc) h
  | some tr => exact ⟨tr, rfl⟩

theorem computeTransferState_some_iff (t : String) (evs : List TransferEvent)
    (r : List String) (tr : Transfer) :
    computeTransferState t evs r = some tr ↔
      ∃ lastEvent, (sortEvents evs).getLast? = some lastEvent ∧
        tr = { transfer_id := t
               current_status := lastEvent.status
               is_terminal := TERMINAL_STATUSES.contains lastEvent.status
               has_warnings := !(detectAnomalies (sortEvents evs)).isEmpty
               last_updated := lastEvent.timestamp
               event_count := evs.length
               warnings := detectAnomalies (sortEvents evs)
               events := sortEvents evs
               rejected_duplicates := r } := by
  unfold computeTransferState
  rw [Option.map_eq_some']
  constructor
  · rintro ⟨lastEvent, hl, rfl⟩
    exact ⟨lastEvent, hl, rfl⟩
  · rintro ⟨lastEvent, hl, rfl⟩
    exact ⟨lastEvent, hl, rfl⟩

/-- Changing only the rejected-duplicates argument changes only the
`rejected_duplicates` field of the result. -/
theorem computeTransferState_rejected (t : String) (evs : List TransferEvent)
    (r r' : List String) :
    computeTransferState t evs r' =
      (computeTransferState t evs r).map
        fun tr => { tr with rejected_duplicates := r' } := by
  unfold computeTransferState
  cases (sortEvents evs).getLast? <;> rfl


-- ─── Submission-history bookkeeping ───

/-- The events of a submission history addressed to one `transfer_id`. -/
def histFor (h : List TransferEvent) (t : String) : List TransferEvent :=
  h.filter fun e => e.transfer_id == t

/-- Keep the first event for each `event_id`, dropping later repeats;
`seen` holds the ids already taken. This is the sub-history the
idempotency gate accepts. -/
def firstDedup (seen : List String) : List TransferEvent → List TransferEvent
  | [] => []
  | e :: es =>
    if e.event_id ∈ seen then firstDedup seen es
    else e :: firstDedup (e.event_id :: seen) es

/-- Attach arrival-order metadata: the `k`-th element (counting from `n`)
gets `arrival_order := n + k`. -/
def attachArrival (n : Nat) : List TransferEvent → List TransferEvent
  | [] => []
  | e :: es => { e with arrival_order := n } :: attachArrival (n + 1) es

theorem firstDedup_append_single (seen : List String) (l : List TransferEvent)
    (e : TransferEvent) :
    firstDedup seen (l ++ [e]) =
      firstDedup seen l ++
        (if e.event_id ∈ seen ∨ e.event_id ∈ l.map TransferEvent.event_id
         then [] else [e]) := by
  induction l generalizing seen with
  | nil => by_cases h : e.event_id ∈ seen <;> simp [firstDedup, h]
  | cons f fs ih =>
    by_cases hf : f.event_id ∈ seen
    · rw [List.cons_append]
      simp only [firstDedup, if_pos hf, ih seen]
      by_cases he : e.event_id = f.event_id
      · simp [he, hf]
      · simp only [List.map_cons, List.mem_cons, he, false_or]
    · rw [List.cons_append]
      simp only [firstDedup, if_neg hf, ih (f.event_id :: seen), List.cons_append,
        List.mem_cons, List.map_cons]
      by_cases he : e.event_id = f.event_id
      · simp [he]
      · by_cases hs : e.event_id ∈ seen <;>
          by_cases hl : e.event_id ∈ fs.map TransferEvent.event_id <;> simp [he, hs, hl]

theorem firstDedup_eq_self {l : List TransferEvent} {seen : List String}
    (hnd : (l.map TransferEvent.event_id).Nodup)
    (hdisj : ∀ e ∈ l, e.event_id ∉ seen) : firstDedup seen l = l := by
  induction l generalizing seen with
  | nil => rfl
  | cons e es ih =>
    simp only [List.map_cons, List.nodup_cons] at hnd
    have he : e.event_id ∉ seen := hdisj e (List.mem_cons_self _ _)
    rw [firstDedup, if_neg he]
    congr 1
    apply ih hnd.2
    intro f hf
    simp only [List.mem_cons]
    rintro (h | h)
    · exact hnd.1 (h ▸ List.mem_map_of_mem TransferEvent.event_id hf)
    · exact hdisj f (List.mem_cons_of_mem _ hf) h

theorem attachArrival_append_single (n : Nat) (l : List TransferEvent)
    (e : TransferEvent) :
    attachArrival n (l ++ [e]) =
      attachArrival n l ++ [{ e with arrival_order := n + l.length }] := by
  induction l generalizing n with
  | nil => simp [attachArrival]
  | cons f fs ih =>
    simp [attachArrival, ih (n + 1)]
    omega

theorem attachArrival_length (n : Nat) (l : List TransferEvent) :
    (attachArrival n l).length = l.length := by
  induction l generalizing n with
  | nil => rfl
  | cons f fs ih => simp [attachArrival, ih]

/-- Membership in `attachArrival`: each element is an original event with
only its `arrival_order` replaced. -/
theorem mem_attachArrival {n : Nat} {l : List TransferEvent} {x : TransferEvent}
    (hx : x ∈ attachArrival n l) :
    ∃ y ∈ l, x = { y with arrival_order := x.arrival_order } := by
  induction l generalizing n with
  | nil => simp [attachArrival] at hx
  | cons f fs ih =>
    simp only [attachArrival, List.mem_cons] at hx
    rcases hx with h | h
    · exact ⟨f, List.mem_cons_self _ _, by rw [h]⟩
    · obtain ⟨y, hy, he⟩ := ih h
      exact ⟨y, List.mem_cons_of_mem _ hy, he⟩

theorem attachArrival_mem {n : Nat} {l : List TransferEvent} {y : TransferEvent}
    (hy : y ∈ l) :
    ∃ x ∈ attachArrival n l, x = { y with arrival_order := x.arrival_order } := by
  induction l generalizing n with
  | nil => simp at hy
  | cons f fs ih =>
    rcases List.mem_cons.1 hy with h | h
    · subst h
      exact ⟨{ y with arrival_order := n }, List.mem_cons_self _ _, rfl⟩
    · obtain ⟨x, hx, he⟩ := ih h
      exact ⟨x, List.mem_cons_of_mem _ hx, he⟩

-- ─── Lemmas: addEvent paths ───

/-- The seen `event_id`s for a transfer (empty when absent). -/
def seenL (s : MemoryStore) (t : String) : List String :=
  (mapLookup s.seenEventIds t).getD []

/-- The stored event log for a transfer (empty when absent). -/
def eventsL (s : MemoryStore) (t : String) : List TransferEvent :=
  (mapLookup s.events t).getD []

/-- The arrival-order number the next accepted event for `t` will receive. -/
def nextArrival (s : MemoryStore) (t : String) : Nat :=
  if (mapLookup s.events t).isNone then 1
  else (mapLookup s.arrivalOrderCounters t).getD 0 + 1

theorem mapLookup_mapSet_of_ne {α : Type} (m : List (String × α)) (k : String) (v : α) :
    ∀ t, t ≠ k → mapLookup (mapSet m k v) t = mapLookup m t :=
  fun t ht => mapLookup_mapSet_ne m k t v fun he => ht he.symm

/-- Full description of the duplicate path of `addEvent`. -/
theorem addEvent_dup {event : TransferEvent} {s : MemoryStore}
    (h : event.event_id ∈ seenL s event.transfer_id) :
    (addEvent event s).1.isDuplicate = true ∧
    (addEvent event s).1.transfer =
      mapLookup (addEvent event s).2.transfers event.transfer_id ∧
    (addEvent event s).2.events = s.events ∧
    (addEvent event s).2.seenEventIds = s.seenEventIds ∧
    (addEvent event s).2.arrivalOrderCounters = s.arrivalOrderCounters ∧
    (addEvent event s).2.version = s.version ∧
    (addEvent event s).2.affectedTransferIds = s.affectedTransferIds ∧
    (∀ t, t ≠ event.transfer_id →
      mapLookup (addEvent event s).2.transfers t = mapLookup s.transfers t) ∧
    (∀ t, t ≠ event.transfer_id →
      getRejectedDuplicates (addEvent event s).2 t = getRejectedDuplicates s t) ∧
    (if event.event_id ∈ getRejectedDuplicates s event.transfer_id then
      getRejectedDuplicates (addEvent event s).2 event.transfer_id =
        getRejectedDuplicates s event.transfer_id ∧
      mapLookup (addEvent event s).2.transfers event.transfer_id =
        mapLookup s.transfers event.transfer_id
     else
      getRejectedDuplicates (addEvent event s).2 event.transfer_id =
        getRejectedDuplicates s event.transfer_id ++ [event.event_id] ∧
      mapLookup (addEvent event s).2.transfers event.transfer_id =
        (mapLookup s.transfers event.transfer_id).map
          fun tr => { tr with rejected_duplicates :=
            getRejectedDuplicates s event.transfer_id ++ [event.event_id] }) := by
  cases hsl : mapLookup s.seenEventIds event.transfer_id with
  | none =>
    exfalso
    rw [seenL, hsl] at h
    simp at h
  | some seen =>
    have h' : event.event_id ∈ seen := by
      rw [seenL, hsl] at h
      simpa using h
    by_cases hrd : mapLookup s.rejectedDuplicates event.transfer_id = none
    · have hid : event.event_id ∉ getRejectedDuplicates s event.transfer_id := by
        simp [getRejectedDuplicates, hrd]
      cases ht : mapLookup s.transfers event.transfer_id with
      | none =>
        refine ⟨?_, ?_, ?_, ?_, ?_, ?_, ?_, ?_, ?_, ?_⟩ <;>
          (try simp [addEvent, hsl, h', hrd, hid, ht, getRejectedDuplicates,
            mapLookup_mapSet_self]) <;>
          (intro t htt
           have h2 : event.transfer_id ≠ t := fun he => htt he.symm
           simp [mapLookup_mapSet, h2])
      | some tr =>
        refine ⟨?_, ?_, ?_, ?_, ?_, ?_, ?_, ?_, ?_, ?_⟩ <;>
          (try simp [addEvent, hsl, h', hrd, hid, ht, getRejectedDuplicates,
            mapLookup_mapSet_self]) <;>
          (intro t htt
           have h2 : event.transfer_id ≠ t := fun he => htt he.symm
           simp [mapLookup_mapSet, h2])
    · obtain ⟨r, hr⟩ := Option.ne_none_iff_exists'.1 hrd
      by_cases hid : event.event_id ∈ getRejectedDuplicates s event.transfer_id
      · have hid' : event.event_id ∈ r := by
          rw [getRejectedDuplicates, hr] at hid
          simpa using hid
        refine ⟨?_, ?_, ?_, ?_, ?_, ?_, ?_, ?_, ?_, ?_⟩ <;>
          simp [addEvent, hsl, h', hr, hid, hid', getRejectedDuplicates]
      · have hid' : event.event_id ∉ r := by
          rw [getRejectedDuplicates, hr] at hid
          simpa using hid
        cases ht : mapLookup s.transfers event.transfer_id with
        | none =>
          refine ⟨?_, ?_, ?_, ?_, ?_, ?_, ?_, ?_, ?_, ?_⟩ <;>
            (try simp [addEvent, hsl, h', hr, hid, hid', ht, getRejectedDuplicates,
              mapLookup_mapSet_self]) <;>
            (intro t htt
             have h2 : event.transfer_id ≠ t := fun he => htt he.symm
             simp [mapLookup_mapSet, h2])
        | some tr =>
          refine ⟨?_, ?_, ?_, ?_, ?_, ?_, ?_, ?_, ?_, ?_⟩ <;>
            (try simp [addEvent, hsl, h', hr, hid, hid', ht, getRejectedDuplicates,
              mapLookup_mapSet_self]) <;>
            (intro t htt
             have h2 : event.transfer_id ≠ t := fun he => htt he.symm
             simp [mapLookup_mapSet, h2])

/-- Full description of the accept path of `addEvent`. -/
theorem addEvent_accept {event : TransferEvent} {s : MemoryStore}
    (h : event.event_id ∉ seenL s event.transfer_id) :
    ∃ tr,
    computeTransferState event.transfer_id
        (eventsL s event.transfer_id ++
          [{ event with arrival_order := nextArrival s event.transfer_id }])
        (getRejectedDuplicates s event.transfer_id) = some tr ∧
    (addEvent event s).1.isDuplicate = false ∧
    (addEvent event s).1.transfer = some tr ∧
    mapLookup (addEvent event s).2.transfers event.transfer_id = some tr ∧
    (∀ t, t ≠ event.transfer_id →
      mapLookup (addEvent event s).2.transfers t = mapLookup s.transfers t) ∧
    eventsL (addEvent event s).2 event.transfer_id =
      eventsL s event.transfer_id ++
        [{ event with arrival_order := nextArrival s event.transfer_id }] ∧
    (∀ t, t ≠ event.transfer_id →
      mapLookup (addEvent event s).2.events t = mapLookup s.events t) ∧
    seenL (addEvent event s).2 event.transfer_id =
      seenL s event.transfer_id ++ [event.event_id] ∧
    (∀ t, t ≠ event.transfer_id →
      mapLookup (addEvent event s).2.seenEventIds t = mapLookup s.seenEventIds t) ∧
    (addEvent event s).2.rejectedDuplicates = s.rejectedDuplicates ∧
    (addEvent event s).2.version = s.version + 1 ∧
    (addEvent event s).2.affectedTransferIds =
      setAdd s.affectedTransferIds event.transfer_id ∧
    (mapLookup (addEvent event s).2.arrivalOrderCounters event.transfer_id).getD 0 =
      nextArrival s event.transfer_id ∧
    (∀ t, t ≠ event.transfer_id →
      mapLookup (addEvent event s).2.arrivalOrderCounters t =
        mapLookup s.arrivalOrderCounters t) := by
  have hne : eventsL s event.transfer_id ++
      [{ event with arrival_order := nextArrival s event.transfer_id }] ≠ [] := by
    simp
  obtain ⟨tr, htr⟩ := @computeTransferState_isSome event.transfer_id
    (eventsL s event.transfer_id ++
      [{ event with arrival_order := nextArrival s event.transfer_id }])
    (getRejectedDuplicates s event.transfer_id) hne
  refine ⟨tr, htr, ?_⟩
  cases hsl : mapLookup s.seenEventIds event.transfer_id with
  | none =>
    cases he : mapLookup s.events event.transfer_id with
    | none =>
      simp only [eventsL, nextArrival, getRejectedDuplicates, hsl, he, Option.getD_none,
        Option.isNone_none, if_pos, List.nil_append] at htr
      refine ⟨?_, ?_, ?_, ?_, ?_, ?_, ?_, ?_, ?_, ?_, ?_, ?_, ?_⟩ <;>
        (try simp [addEvent, hsl, he, htr, seenL, eventsL, getRejectedDuplicates,
          nextArrival, mapLookup_mapSet_self]) <;>
        (intro t htt
         have h2 : event.transfer_id ≠ t := fun heq => htt heq.symm
         simp [mapLookup_mapSet, h2])
    | some l =>
      simp only [eventsL, nextArrival, getRejectedDuplicates, hsl, he, Option.getD_some,
        Option.isNone_some, if_neg, Bool.false_eq_true, ite_false] at htr
      refine ⟨?_, ?_, ?_, ?_, ?_, ?_, ?_, ?_, ?_, ?_, ?_, ?_, ?_⟩ <;>
        (try simp [addEvent, hsl, he, htr, seenL, eventsL, getRejectedDuplicates,
          nextArrival, mapLookup_mapSet_self]) <;>
        (intro t htt
         have h2 : event.transfer_id ≠ t := fun heq => htt heq.symm
         simp [mapLookup_mapSet, h2])
  | some seen =>
    have h' : event.event_id ∉ seen := by
      rw [seenL, hsl] at h
      simpa using h
    cases he : mapLookup s.events event.transfer_id with
    | none =>
      simp only [eventsL, nextArrival, getRejectedDuplicates, hsl, he, Option.getD_none,
        Option.isNone_none, if_pos, List.nil_append] at htr
      refine ⟨?_, ?_, ?_, ?_, ?_, ?_, ?_, ?_, ?_, ?_, ?_, ?_, ?_⟩ <;>
        (try simp [addEvent, hsl, he, h', htr, seenL, eventsL, getRejectedDuplicates,
          nextArrival, mapLookup_mapSet_self]) <;>
        (intro t htt
         have h2 : event.transfer_id ≠ t := fun heq => htt heq.symm
         simp [mapLookup_mapSet, h2])
    | some l =>
      simp only [eventsL, nextArrival, getRejectedDuplicates, hsl, he, Option.getD_some,
        Option.isNone_some, if_neg, Bool.false_eq_true, ite_false] at htr
      refine ⟨?_, ?_, ?_, ?_, ?_, ?_, ?_, ?_, ?_, ?_, ?_, ?_, ?_⟩ <;>
        (try simp [addEvent, hsl, he, h', htr, seenL, eventsL, getRejectedDuplicates,
          nextArrival, mapLookup_mapSet_self]) <;>
        (intro t htt
         have h2 : event.transfer_id ≠ t := fun heq => htt heq.symm
         simp [mapLookup_mapSet, h2])

-- ─── Lemmas: recomputeTransfer ───

theorem recomputeTransfer_of_no_events {s : MemoryStore} {t : String}
    (h : eventsL s t = []) : recomputeTransfer t s = (none, s) := by
  unfold eventsL at h
  unfold recomputeTransfer
  rw [h]
  rfl

theorem recomputeTransfer_of_events {s : MemoryStore} {t : String}
    (h : eventsL s t ≠ []) :
    ∃ tr, computeTransferState t (eventsL s t) (getRejectedDuplicates s t) = some tr ∧
      recomputeTransfer t s =
        (some tr,
         { s with transfers := mapSet s.transfers t tr
                  version := s.version + 1
                  affectedTransferIds := setAdd s.affectedTransferIds t }) := by
  obtain ⟨tr, htr⟩ :=
    @computeTransferState_isSome t (eventsL s t) (getRejectedDuplicates s t) h
  refine ⟨tr, htr, ?_⟩
  unfold eventsL at h htr
  have hie : ((mapLookup s.events t).getD []).isEmpty = false := by
    cases hl : (mapLookup s.events t).getD [] with
    | nil => exact absurd hl h
    | cons a l => rfl
  simp [recomputeTransfer, hie, htr]

theorem mem_setAdd_self (l : List String) (x : String) : x ∈ setAdd l x := by
  unfold setAdd
  split
  · assumption
  · simp

-- ─── Claim theorems ───

/-- C10: `recompute` on an identifier with no stored events returns the
not-found signal and leaves the whole store unchanged — the version counter
is not incremented, the affected-set is untouched, and no event-log or
derived-cache entry is created. -/
theorem recompute_missing_id_is_noop (s : MemoryStore) (t : String)
    (h : eventsL s t = []) :
    recomputeTransfer t s = (none, s) :=
  recomputeTransfer_of_no_events h

/-- Witness for C10: recomputing an unknown identifier on the fresh store
returns `none` and the identical store. -/
theorem recompute_missing_id_is_noop_witness :
    eventsL emptyStore "tr_missing" = [] ∧
      recomputeTransfer "tr_missing" emptyStore = (none, emptyStore) :=
  ⟨rfl, recompute_missing_id_is_noop emptyStore "tr_missing" rfl⟩

/-- C3: resubmitting an already-seen `event_id` for the same `transfer_id`
reports a duplicate and leaves every cached Transfer's `event_count`
unchanged; an `event_id` unseen for its `transfer_id` is accepted; and a
submission never disturbs the seen-set of any other `transfer_id`
(idempotency is scoped per transfer). -/
theorem duplicate_event_noop_and_scoping (s : MemoryStore) (e : TransferEvent) :
    (e.event_id ∈ seenL s e.transfer_id →
      (addEvent e s).1.isDuplicate = true ∧
      ∀ t, (mapLookup (addEvent e s).2.transfers t).map Transfer.event_count =
        (mapLookup s.transfers t).map Transfer.event_count) ∧
    (e.event_id ∉ seenL s e.transfer_id → (addEvent e s).1.isDuplicate = false) ∧
    (∀ t, t ≠ e.transfer_id → seenL (addEvent e s).2 t = seenL s t) := by
  refine ⟨?_, ?_, ?_⟩
  · intro h
    obtain ⟨h1, _, _, _, _, _, _, h8, _, h10⟩ := addEvent_dup h
    refine ⟨h1, ?_⟩
    intro t
    by_cases ht : t = e.transfer_id
    · subst ht
      by_cases hid : e.event_id ∈ getRejectedDuplicates s e.transfer_id
      · rw [if_pos hid] at h10
        rw [h10.2]
      · rw [if_neg hid] at h10
        rw [h10.2]
        cases mapLookup s.transfers e.transfer_id <;> rfl
    · rw [h8 t ht]
  · intro h
    obtain ⟨tr, _, h2, _⟩ := addEvent_accept h
    exact h2
  · intro t ht
    by_cases h : e.event_id ∈ seenL s e.transfer_id
    · obtain ⟨_, _, _, h4, _⟩ := addEvent_dup h
      rw [seenL, h4]
      rfl
    · obtain ⟨tr, _, _, _, _, _, _, _, _, h9, _⟩ := addEvent_accept h
      rw [seenL, h9 t ht]
      rfl

/-- Witness for C3: after accepting `e1` for `t1`, resubmitting it is
flagged as duplicate and the cached `event_count` for `t1` is unchanged. -/
theorem duplicate_event_noop_and_scoping_witness :
    (addEvent ⟨"t1", "e1", "initiated", 1, none, 0⟩
      (addEvent ⟨"t1", "e1", "initiated", 1, none, 0⟩ emptyStore).2).1.isDuplicate = true ∧
    (mapLookup (addEvent ⟨"t1", "e1", "initiated", 1, none, 0⟩
      (addEvent ⟨"t1", "e1", "initiated", 1, none, 0⟩ emptyStore).2).2.transfers
        "t1").map Transfer.event_count =
      (mapLookup (addEvent ⟨"t1", "e1", "initiated", 1, none, 0⟩
        emptyStore).2.transfers "t1").map Transfer.event_count :=
  ⟨((duplicate_event_noop_and_scoping
      (addEvent ⟨"t1", "e1", "initiated", 1, none, 0⟩ emptyStore).2
      ⟨"t1", "e1", "initiated", 1, none, 0⟩).1 (by decide)).1,
   ((duplicate_event_noop_and_scoping
      (addEvent ⟨"t1", "e1", "initiated", 1, none, 0⟩ emptyStore).2
      ⟨"t1", "e1", "initiated", 1, none, 0⟩).1 (by decide)).2 "t1"⟩

/-- C4: the version counter advances by exactly 1 on each accepted
submission and on each successful recompute (which also marks the
identifier affected), and by 0 on a duplicate submission; the
affected-set drain returns the accumulated identifiers once — an
immediately following call returns the empty set. -/
theorem version_increment_and_drain (s : MemoryStore) (e : TransferEvent) (t : String) :
    (e.event_id ∉ seenL s e.transfer_id →
      getVersion (addEvent e s).2 = getVersion s + 1 ∧
      e.transfer_id ∈ (addEvent e s).2.affectedTransferIds) ∧
    (e.event_id ∈ seenL s e.transfer_id →
      getVersion (addEvent e s).2 = getVersion s ∧
      (addEvent e s).2.affectedTransferIds = s.affectedTransferIds) ∧
    (eventsL s t ≠ [] →
      getVersion (recomputeTransfer t s).2 = getVersion s + 1 ∧
      t ∈ (recomputeTransfer t s).2.affectedTransferIds) ∧
    (getAffectedTransferIds s).1 = s.affectedTransferIds ∧
    (getAffectedTransferIds (getAffectedTransferIds s).2).1 = [] := by
  refine ⟨?_, ?_, ?_, rfl, rfl⟩
  · intro h
    obtain ⟨tr, _, _, _, _, _, _, _, _, _, _, h11, h12, _⟩ := addEvent_accept h
    refine ⟨h11, ?_⟩
    rw [h12]
    exact mem_setAdd_self _ _
  · intro h
    obtain ⟨_, _, _, _, _, h6, h7, _⟩ := addEvent_dup h
    exact ⟨h6, h7⟩
  · intro h
    obtain ⟨tr, _, hrt⟩ := recomputeTransfer_of_events h
    rw [hrt]
    exact ⟨rfl, mem_setAdd_self _ _⟩

/-- Witness for C4: a first submission on the fresh store bumps the version
from 0 to 1, and after one drain a second drain yields nothing. -/
theorem version_increment_and_drain_witness :
    getVersion (addEvent ⟨"t1", "e1", "initiated", 1, none, 0⟩ emptyStore).2 =
      getVersion emptyStore + 1 ∧
    (getAffectedTransferIds
      (getAffectedTransferIds
        (addEvent ⟨"t1", "e1", "initiated", 1, none, 0⟩ emptyStore).2).2).1 = [] :=
  ⟨((version_increment_and_drain emptyStore
      ⟨"t1", "e1", "initiated", 1, none, 0⟩ "t1").1 (by decide)).1,
   (version_increment_and_drain
      (addEvent ⟨"t1", "e1", "initiated", 1, none, 0⟩ emptyStore).2
      ⟨"t1", "e1", "initiated", 1, none, 0⟩ "t1").2.2.2.2⟩

/-- C2: for every non-empty event sequence, in whatever order it was
submitted, the `events` field of the derived Transfer is a permutation of
the input sorted by timestamp ascending with ties at equal timestamps
broken by ascending `event_id` (the order `eventLE`). -/
theorem derived_events_sorted (tid : String) (evs : List TransferEvent)
    (r : List String) (h : evs ≠ []) :
    ∃ tr, computeTransferState tid evs r = some tr ∧
      List.Sorted eventLE tr.events ∧ List.Perm tr.events evs := by
  obtain ⟨tr, htr⟩ := @computeTransferState_isSome tid evs r h
  obtain ⟨lastEvent, _, he⟩ := (computeTransferState_some_iff tid evs r tr).1 htr
  refine ⟨tr, htr, ?_, ?_⟩
  · rw [he]
    exact sortEvents_sorted evs
  · rw [he]
    exact sortEvents_perm evs

/-- Witness for C2: a two-event history submitted in reverse timestamp
order derives a Transfer whose events are sorted and a permutation of the
input. -/
theorem derived_events_sorted_witness :
    ([(⟨"t1", "e2", "processing", 2, none, 0⟩ : TransferEvent),
      ⟨"t1", "e1", "initiated", 1, none, 0⟩] : List TransferEvent) ≠ [] ∧
    ∃ tr, computeTransferState "t1"
        [⟨"t1", "e2", "processing", 2, none, 0⟩, ⟨"t1", "e1", "initiated", 1, none, 0⟩]
        [] = some tr ∧
      List.Sorted eventLE tr.events ∧
      List.Perm tr.events
        [⟨"t1", "e2", "processing", 2, none, 0⟩, ⟨"t1", "e1", "initiated", 1, none, 0⟩] :=
  ⟨by decide,
   derived_events_sorted "t1"
     [⟨"t1", "e2", "processing", 2, none, 0⟩, ⟨"t1", "e1", "initiated", 1, none, 0⟩]
     [] (by decide)⟩

-- ─── Lemmas: anomaly rules ───

/-- Disjoint filters concatenated are a permutation of the disjunctive
filter. -/
theorem filter_append_perm_filter_or (l : List TransferEvent)
    (p q : TransferEvent → Bool) (hdisj : ∀ e ∈ l, ¬(p e = true ∧ q e = true)) :
    List.Perm (l.filter p ++ l.filter q) (l.filter fun e => p e || q e) := by
  induction l with
  | nil => simp
  | cons a t ih =>
    have hdt : ∀ e ∈ t, ¬(p e = true ∧ q e = true) :=
      fun e he => hdisj e (List.mem_cons_of_mem _ he)
    by_cases hp : p a = true
    · have hq : q a = false := by
        cases hqa : q a
        · rfl
        · exact absurd ⟨hp, hqa⟩ (hdisj a (List.mem_cons_self _ _))
      simpa [List.filter_cons, hp, hq] using (ih hdt).cons a
    · have hp' : p a = false := by
        cases hpa : p a
        · rfl
        · exact absurd hpa hp
      by_cases hq : q a = true
      · simp only [List.filter_cons, hp', hq, Bool.false_or, if_true, if_false,
          Bool.false_eq_true]
        exact List.Perm.trans List.perm_middle ((ih hdt).cons a)
      · have hq' : q a = false := by
          cases hqa : q a
          · rfl
          · exact absurd hqa hq
        simpa [List.filter_cons, hp', hq'] using ih hdt

/-- C5: the detector emits a `conflicting_terminals` warning iff the
history contains both a `settled` and a `failed` event, and the warning
then lists exactly the event_ids of every settled-or-failed event. -/
theorem conflicting_terminals_spec (events : List TransferEvent) :
    ((∃ e ∈ events, e.status = "settled") → (∃ e ∈ events, e.status = "failed") →
      ∃ w, checkConflictingTerminals events = [w] ∧
        w.type = "conflicting_terminals" ∧
        List.Perm w.event_ids
          ((events.filter fun e => e.status == "settled" || e.status == "failed").map
            fun e => e.event_id)) ∧
    ((¬∃ e ∈ events, e.status = "settled") ∨ (¬∃ e ∈ events, e.status = "failed") →
      checkConflictingTerminals events = []) := by
  constructor
  · intro hs hf
    have hsb : (events.any fun e => e.status == "settled") = true := by
      rw [List.any_eq_true]
      obtain ⟨e, he, hst⟩ := hs
      exact ⟨e, he, by simp [hst]⟩
    have hfb : (events.any fun e => e.status == "failed") = true := by
      rw [List.any_eq_true]
      obtain ⟨e, he, hst⟩ := hf
      exact ⟨e, he, by simp [hst]⟩
    refine ⟨{ type := "conflicting_terminals"
              message := "Both settled and failed states received"
              event_ids :=
                ((events.filter fun e => e.status == "settled").map fun e => e.event_id) ++
                  ((events.filter fun e => e.status == "failed").map fun e => e.event_id) },
      ?_, rfl, ?_⟩
    · simp [checkConflictingTerminals, hsb, hfb]
    · rw [← List.map_append]
      refine List.Perm.map _ (filter_append_perm_filter_or events _ _ ?_)
      rintro e _ ⟨h1, h2⟩
      rw [beq_iff_eq] at h1 h2
      rw [h1] at h2
      exact absurd h2 (by decide)
  · intro h
    rcases h with h | h
    · have hsb : (events.any fun e => e.status == "settled") = false := by
        rw [List.any_eq_false]
        intro e he hc
        exact h ⟨e, he, by simpa using hc⟩
      simp [checkConflictingTerminals, hsb]
    · have hfb : (events.any fun e => e.status == "failed") = false := by
        rw [List.any_eq_false]
        intro e he hc
        exact h ⟨e, he, by simpa using hc⟩
      simp [checkConflictingTerminals, hfb]

/-- Witness for C5: a history with one settled and one failed event yields
the warning listing both event_ids. -/
theorem conflicting_terminals_spec_witness :
    (∃ e ∈ ([⟨"t1", "a", "settled", 1, none, 0⟩,
        ⟨"t1", "b", "failed", 2, none, 0⟩] : List TransferEvent), e.status = "settled") ∧
    ∃ w, checkConflictingTerminals
        [⟨"t1", "a", "settled", 1, none, 0⟩, ⟨"t1", "b", "failed", 2, none, 0⟩] = [w] ∧
      w.type = "conflicting_terminals" ∧
      List.Perm w.event_ids
        ((([⟨"t1", "a", "settled", 1, none, 0⟩,
            ⟨"t1", "b", "failed", 2, none, 0⟩] : List TransferEvent).filter
              fun e => e.status == "settled" || e.status == "failed").map
          fun e => e.event_id) :=
  ⟨by decide,
   (conflicting_terminals_spec
      [⟨"t1", "a", "settled", 1, none, 0⟩, ⟨"t1", "b", "failed", 2, none, 0⟩]).1
     (by decide) (by decide)⟩

theorem findFirstTerminal_eq_none {events : List TransferEvent}
    (h : ∀ e ∈ events, TERMINAL_STATUSES.contains e.status = false) :
    findFirstTerminal events = none := by
  induction events with
  | nil => rfl
  | cons e es ih =>
    rw [findFirstTerminal, if_neg]
    · exact ih fun f hf => h f (List.mem_cons_of_mem _ hf)
    · simpa using h e (List.mem_cons_self _ _)

theorem findFirstTerminal_append {pre : List TransferEvent} {T : TransferEvent}
    (post : List TransferEvent)
    (hpre : ∀ e ∈ pre, TERMINAL_STATUSES.contains e.status = false)
    (hT : TERMINAL_STATUSES.contains T.status = true) :
    findFirstTerminal (pre ++ T :: post) = some (T, post) := by
  induction pre with
  | nil =>
    rw [List.nil_append, findFirstTerminal, if_pos]
    simpa using hT
  | cons e es ih =>
    rw [List.cons_append, findFirstTerminal, if_neg]
    · exact ih fun f hf => hpre f (List.mem_cons_of_mem _ hf)
    · simpa using hpre e (List.mem_cons_self _ _)

/-- C6: with no terminal event the `event_after_terminal` rule emits
nothing; otherwise, `T` being the first terminal event in sequence order,
it emits one warning iff some event after `T` has a strictly later
timestamp, listing exactly those strictly-later events. -/
theorem event_after_terminal_spec (events : List TransferEvent) :
    ((∀ e ∈ events, TERMINAL_STATUSES.contains e.status = false) →
      checkEventAfterTerminal events = []) ∧
    (∀ pre T post, events = pre ++ T :: post →
      (∀ e ∈ pre, TERMINAL_STATUSES.contains e.status = false) →
      TERMINAL_STATUSES.contains T.status = true →
      checkEventAfterTerminal events =
        (if (post.filter fun e => T.timestamp < e.timestamp).isEmpty then []
         else
           [{ type := "event_after_terminal"
              message := "Activity detected after transfer reached terminal state (" ++
                T.status ++ ")"
              event_ids :=
                (post.filter fun e => T.timestamp < e.timestamp).map
                  fun e => e.event_id }])) := by
  constructor
  · intro h
    unfold checkEventAfterTerminal
    rw [findFirstTerminal_eq_none h]
  · intro pre T post heq hpre hT
    subst heq
    unfold checkEventAfterTerminal
    rw [findFirstTerminal_append post hpre hT]

/-- Witness for C6: with history `initiated@1, settled@2, processing@2,
processing@3`, only the strictly later `processing@3` is flagged. -/
theorem event_after_terminal_spec_witness :
    TERMINAL_STATUSES.contains ("settled" : String) = true ∧
    checkEventAfterTerminal
      [⟨"t1", "a", "initiated", 1, none, 0⟩, ⟨"t1", "b", "settled", 2, none, 0⟩,
       ⟨"t1", "c", "processing", 2, none, 0⟩, ⟨"t1", "d", "processing", 3, none, 0⟩] =
      (if (([⟨"t1", "c", "processing", 2, none, 0⟩,
            ⟨"t1", "d", "processing", 3, none, 0⟩] : List TransferEvent).filter
              fun e => (2 : Int) < e.timestamp).isEmpty then []
       else
         [{ type := "event_after_terminal"
            message := "Activity detected after transfer reached terminal state (" ++
              "settled" ++ ")"
            event_ids :=
              (([⟨"t1", "c", "processing", 2, none, 0⟩,
                ⟨"t1", "d", "processing", 3, none, 0⟩] : List TransferEvent).filter
                  fun e => (2 : Int) < e.timestamp).map
                fun e => e.event_id }]) :=
  ⟨by decide,
   (event_after_terminal_spec
      [⟨"t1", "a", "initiated", 1, none, 0⟩, ⟨"t1", "b", "settled", 2, none, 0⟩,
       ⟨"t1", "c", "processing", 2, none, 0⟩, ⟨"t1", "d", "processing", 3, none, 0⟩]).2
     [⟨"t1", "a", "initiated", 1, none, 0⟩] ⟨"t1", "b", "settled", 2, none, 0⟩
     [⟨"t1", "c", "processing", 2, none, 0⟩, ⟨"t1", "d", "processing", 3, none, 0⟩]
     (by decide) (by decide) (by decide)⟩

theorem foldl_groupByStatusStep_lookup (l : List TransferEvent)
    (g : List (String × List TransferEvent)) (st : String) :
    mapLookup (l.foldl groupByStatusStep g) st =
      (if mapLookup g st = none ∧ (l.filter fun e => e.status == st) = [] then none
       else some ((mapLookup g st).getD [] ++ l.filter fun e => e.status == st)) := by
  induction l generalizing g with
  | nil => cases hg : mapLookup g st <;> simp [hg]
  | cons e es ih =>
    rw [List.foldl_cons, ih (groupByStatusStep g e)]
    by_cases hst : e.status = st
    · subst hst
      cases hg : mapLookup g e.status with
      | some gr =>
        simp [groupByStatusStep, hg, mapLookup_mapSet_self, List.filter_cons]
      | none =>
        simp [groupByStatusStep, hg, mapLookup_mapSet_self, List.filter_cons]
    · cases hg : mapLookup g e.status with
      | some gr =>
        simp [groupByStatusStep, hg, mapLookup_mapSet_ne _ _ _ _ hst,
          List.filter_cons, hst]
      | none =>
        simp [groupByStatusStep, hg, mapLookup_mapSet_ne _ _ _ _ hst,
          List.filter_cons, hst]

theorem nodupKeys_foldl_groupByStatusStep (l : List TransferEvent)
    (g : List (String × List TransferEvent)) (h : (mapKeys g).Nodup) :
    (mapKeys (l.foldl groupByStatusStep g)).Nodup := by
  induction l generalizing g with
  | nil => exact h
  | cons e es ih =>
    rw [List.foldl_cons]
    apply ih
    unfold groupByStatusStep
    cases mapLookup g e.status <;> exact nodup_mapKeys_mapSet _ _ _ h

theorem groupByStatus_lookup (events : List TransferEvent) (st : String) :
    mapLookup (groupByStatus events) st =
      (if (events.filter fun e => e.status == st) = [] then none
       else some (events.filter fun e => e.status == st)) := by
  have h := foldl_groupByStatusStep_lookup events [] st
  simpa [groupByStatus, mapLookup] using h

theorem groupByStatus_nodupKeys (events : List TransferEvent) :
    (mapKeys (groupByStatus events)).Nodup :=
  nodupKeys_foldl_groupByStatusStep events [] (by simp [mapKeys])

theorem mem_groupByStatus_iff (events : List TransferEvent)
    (p : String × List TransferEvent) :
    p ∈ groupByStatus events ↔
      (events.filter fun e => e.status == p.1) ≠ [] ∧
      p.2 = events.filter fun e => e.status == p.1 := by
  constructor
  · intro hp
    have hl := mapLookup_of_mem_nodupKeys (groupByStatus_nodupKeys events) hp
    rw [groupByStatus_lookup] at hl
    by_cases hf : (events.filter fun e => e.status == p.1) = []
    · rw [if_pos hf] at hl
      cases hl
    · rw [if_neg hf] at hl
      injection hl with hl
      exact ⟨hf, hl.symm⟩
  · rintro ⟨hne, hp2⟩
    have hl : mapLookup (groupByStatus events) p.1 = some p.2 := by
      rw [groupByStatus_lookup, if_neg hne, hp2]
    have hm := mem_of_mapLookup_eq_some hl
    simpa using hm

/-- C7 counterexample: two events sharing both `status` and `event_id` form
a status group with a single distinct event_id, yet `checkDuplicateStatus`
flags it — the rule counts events, not distinct event_ids. -/
theorem duplicate_status_flags_single_distinct_id :
    ((([⟨"t1", "e1", "settled", 0, none, 0⟩, ⟨"t1", "e1", "settled", 0, none, 0⟩] :
        List TransferEvent).map fun e => e.event_id) = ["e1", "e1"]) ∧
    checkDuplicateStatus
      [⟨"t1", "e1", "settled", 0, none, 0⟩, ⟨"t1", "e1", "settled", 0, none, 0⟩] =
      [{ type := "duplicate_status"
         message := "Multiple events report status \"settled\""
         event_ids := ["e1", "e1"] }] := by
  decide

/-- C7 (amended): the `duplicate_status` rule groups events by status and
emits one warning per group containing more than one event — event
occurrences counted with multiplicity, not distinct event_ids — and that
warning lists the event_id of every event in the group. -/
theorem duplicate_status_spec (events : List TransferEvent) (w : Warning) :
    w ∈ checkDuplicateStatus events ↔
      ∃ st, 2 ≤ (events.filter fun e => e.status == st).length ∧
        w = { type := "duplicate_status"
              message := "Multiple events report status \"" ++ st ++ "\""
              event_ids :=
                (events.filter fun e => e.status == st).map fun e => e.event_id } := by
  unfold checkDuplicateStatus
  rw [List.mem_filterMap]
  constructor
  · rintro ⟨p, hp, hf⟩
    rw [mem_groupByStatus_iff] at hp
    obtain ⟨hne, hp2⟩ := hp
    by_cases hlen : 1 < p.2.length
    · rw [if_pos hlen] at hf
      injection hf with hf
      subst hf
      refine ⟨p.1, ?_, ?_⟩
      · rw [hp2] at hlen
        omega
      · rw [hp2]
    · rw [if_neg hlen] at hf
      cases hf
  · rintro ⟨st, hlen, rfl⟩
    refine ⟨(st, events.filter fun e => e.status == st), ?_, ?_⟩
    · rw [mem_groupByStatus_iff]
      refine ⟨?_, rfl⟩
      intro hnil
      rw [hnil] at hlen
      simp at hlen
    · rw [if_pos (by omega : 1 < (events.filter fun e => e.status == st).length)]

-- ─── The store invariant over a submission history ───

theorem histFor_append_single (h : List TransferEvent) (e : TransferEvent)
    (t : String) :
    histFor (h ++ [e]) t =
      histFor h t ++ (if e.transfer_id = t then [e] else []) := by
  unfold histFor
  rw [List.filter_append]
  congr 1
  by_cases he : e.transfer_id = t <;> simp [he]

theorem mem_map_event_id_iff_filter (l : List TransferEvent) (id : String) :
    id ∈ l.map TransferEvent.event_id ↔
      1 ≤ (l.filter fun e => e.event_id == id).length := by
  induction l with
  | nil => simp
  | cons f fs ih =>
    by_cases hf : f.event_id = id
    · simp [List.filter_cons, hf]
    · simp only [List.map_cons, List.mem_cons, List.filter_cons]
      rw [show (f.event_id == id) = false by simpa using hf]
      simp only [Bool.false_eq_true, if_false]
      rw [ih]
      constructor
      · rintro (h | h)
        · exact absurd h.symm hf
        · exact h
      · exact Or.inr

/-- The invariant the store maintains over the history `h` of submissions
processed so far (in order): seen-sets and rejected-duplicates reflect
occurrence counts, the derived cache equals re-derivation from the stored
log, and the stored log is the first-occurrence sub-history with arrival
order attached. -/
structure StoreInv (h : List TransferEvent) (s : MemoryStore) : Prop where
  seen_iff : ∀ t id, id ∈ seenL s t ↔ id ∈ (histFor h t).map TransferEvent.event_id
  rejected_iff : ∀ t id, id ∈ getRejectedDuplicates s t ↔
    2 ≤ ((histFor h t).filter fun e => e.event_id == id).length
  cache : ∀ t, mapLookup s.transfers t =
    computeTransferState t (eventsL s t) (getRejectedDuplicates s t)
  events_eq : ∀ t, eventsL s t = attachArrival 1 (firstDedup [] (histFor h t))
  counter_eq : ∀ t, (mapLookup s.arrivalOrderCounters t).getD 0 = (eventsL s t).length

theorem storeInv_empty : StoreInv [] emptyStore := by
  constructor <;> intro t <;>
    simp [seenL, eventsL, getRejectedDuplicates, emptyStore, mapLookup, histFor,
      firstDedup, attachArrival, (computeTransferState_eq_none_iff t [] []).2 rfl]

/-- Under the invariant, the next arrival-order number is one past the
stored log's length. -/
theorem nextArrival_eq_length {h : List TransferEvent} {s : MemoryStore}
    (inv : StoreInv h s) (t : String) :
    nextArrival s t = (eventsL s t).length + 1 := by
  unfold nextArrival
  cases he : mapLookup s.events t with
  | none =>
    have : eventsL s t = [] := by rw [eventsL, he]; rfl
    simp [this]
  | some l =>
    have hc := inv.counter_eq t
    simp only [he, Option.isNone_some, Bool.false_eq_true, if_false]
    rw [hc]

theorem storeInv_step_dup {h : List TransferEvent} {s : MemoryStore}
    (inv : StoreInv h s) (e : TransferEvent)
    (hmem : e.event_id ∈ seenL s e.transfer_id) :
    StoreInv (h ++ [e]) (addEvent e s).2 := by
  obtain ⟨_, _, h3, h4, h5, _, _, h8, h9, h10⟩ := addEvent_dup hmem
  have hidh : e.event_id ∈ (histFor h e.transfer_id).map TransferEvent.event_id :=
    (inv.seen_iff e.transfer_id e.event_id).1 hmem
  have heventsL : ∀ t, eventsL (addEvent e s).2 t = eventsL s t := by
    intro t
    rw [eventsL, h3]
    rfl
  have hseenL : ∀ t, seenL (addEvent e s).2 t = seenL s t := by
    intro t
    rw [seenL, h4]
    rfl
  constructor
  · -- seen_iff
    intro t id
    rw [hseenL t, inv.seen_iff t id, histFor_append_single, List.map_append,
      List.mem_append]
    by_cases het : e.transfer_id = t
    · subst het
      simp only [eq_self_iff_true, if_true, List.map_cons, List.map_nil,
        List.mem_cons, List.not_mem_nil, or_false]
      constructor
      · exact Or.inl
      · rintro (hx | rfl)
        · exact hx
        · exact hidh
    · simp [het]
  · -- rejected_iff
    intro t id
    rw [histFor_append_single]
    by_cases het : e.transfer_id = t
    · subst het
      rw [List.filter_append]
      by_cases hide : e.event_id = id
      · subst hide
        have hcnt1 : 1 ≤ ((histFor h e.transfer_id).filter
            fun f => f.event_id == e.event_id).length :=
          (mem_map_event_id_iff_filter _ _).1 hidh
        have hrhs : 2 ≤ (((histFor h e.transfer_id).filter
            fun f => f.event_id == e.event_id) ++
              ((if e.transfer_id = e.transfer_id then [e] else []).filter
                fun f => f.event_id == e.event_id)).length := by
          simp only [if_pos rfl, List.filter_cons, List.filter_nil, beq_self_eq_true,
            if_true, List.length_append, List.length_cons, List.length_nil]
          omega
        rw [iff_true_right hrhs]
        by_cases hid : e.event_id ∈ getRejectedDuplicates s e.transfer_id
        · rw [if_pos hid] at h10
          rw [h10.1]
          exact hid
        · rw [if_neg hid] at h10
          rw [h10.1]
          simp
      · have hflt : ((if e.transfer_id = e.transfer_id then [e] else []).filter
            fun f => f.event_id == id) = [] := by
          simp [hide]
        rw [hflt, List.append_nil]
        have hrej : id ∈ getRejectedDuplicates (addEvent e s).2 e.transfer_id ↔
            id ∈ getRejectedDuplicates s e.transfer_id := by
          by_cases hid : e.event_id ∈ getRejectedDuplicates s e.transfer_id
          · rw [if_pos hid] at h10
            rw [h10.1]
          · rw [if_neg hid] at h10
            rw [h10.1]
            simp [hide]
            intro hc
            exact absurd hc.symm hide
        rw [hrej]
        exact inv.rejected_iff e.transfer_id id
    · simp only [if_neg het, List.filter_nil, List.append_nil, List.filter_append]
      rw [h9 t (fun he' => het he'.symm)]
      simpa using inv.rejected_iff t id
  · -- cache
    intro t
    by_cases het : t = e.transfer_id
    · subst het
      by_cases hid : e.event_id ∈ getRejectedDuplicates s e.transfer_id
      · rw [if_pos hid] at h10
        rw [h10.2, h10.1, heventsL e.transfer_id]
        exact inv.cache e.transfer_id
      · rw [if_neg hid] at h10
        rw [h10.2, h10.1, heventsL e.transfer_id, inv.cache e.transfer_id]
        exact (computeTransferState_rejected e.transfer_id (eventsL s e.transfer_id)
          (getRejectedDuplicates s e.transfer_id)
          (getRejectedDuplicates s e.transfer_id ++ [e.event_id])).symm
    · rw [h8 t het, h9 t het, heventsL t]
      exact inv.cache t
  · -- events_eq
    intro t
    rw [heventsL t, histFor_append_single]
    by_cases het : e.transfer_id = t
    · subst het
      rw [if_pos rfl, firstDedup_append_single]
      rw [if_pos (Or.inr hidh), List.append_nil]
      exact inv.events_eq e.transfer_id
    · rw [if_neg het, List.append_nil]
      exact inv.events_eq t
  · -- counter_eq
    intro t
    rw [h5, heventsL t]
    exact inv.counter_eq t

theorem storeInv_step_accept {h : List TransferEvent} {s : MemoryStore}
    (inv : StoreInv h s) (e : TransferEvent)
    (hmem : e.event_id ∉ seenL s e.transfer_id) :
    StoreInv (h ++ [e]) (addEvent e s).2 := by
  obtain ⟨tr, h1, _, _, h4, h5, h6, h7, h8, h9, h10, _, _, h13, h14⟩ :=
    addEvent_accept hmem
  have hidh : e.event_id ∉ (histFor h e.transfer_id).map TransferEvent.event_id :=
    fun hc => hmem ((inv.seen_iff e.transfer_id e.event_id).2 hc)
  have hrejL : ∀ t, getRejectedDuplicates (addEvent e s).2 t =
      getRejectedDuplicates s t := by
    intro t
    rw [getRejectedDuplicates, h10]
    rfl
  constructor
  · -- seen_iff
    intro t id
    rw [histFor_append_single, List.map_append, List.mem_append]
    by_cases het : e.transfer_id = t
    · subst het
      rw [h8, List.mem_append, inv.seen_iff e.transfer_id id]
      simp
    · rw [seenL, h9 t (fun he' => het he'.symm)]
      have hseen := inv.seen_iff t id
      rw [seenL] at hseen
      rw [hseen]
      simp [het]
  · -- rejected_iff
    intro t id
    rw [hrejL t, histFor_append_single, List.filter_append]
    by_cases het : e.transfer_id = t
    · subst het
      by_cases hide : e.event_id = id
      · subst hide
        have hcnt0 : ((histFor h e.transfer_id).filter
            fun f => f.event_id == e.event_id).length = 0 := by
          by_contra hc
          exact hidh ((mem_map_event_id_iff_filter _ _).2 (by omega))
        have hflt : ((if e.transfer_id = e.transfer_id then [e] else []).filter
            fun f => f.event_id == e.event_id).length = 1 := by
          simp
        rw [List.length_append, hcnt0, hflt]
        have hnot2 : ¬(2 ≤ 0 + 1) := by omega
        rw [iff_false_right hnot2]
        intro hc
        have := (inv.rejected_iff e.transfer_id e.event_id).1 hc
        omega
      · have hflt : ((if e.transfer_id = e.transfer_id then [e] else []).filter
            fun f => f.event_id == id) = [] := by
          simp [hide]
        rw [hflt, List.append_nil]
        exact inv.rejected_iff e.transfer_id id
    · have hflt : ((if e.transfer_id = t then [e] else []).filter
          fun f => f.event_id == id) = [] := by
        simp [het]
      rw [hflt, List.append_nil]
      exact inv.rejected_iff t id
  · -- cache
    intro t
    by_cases het : t = e.transfer_id
    · subst het
      rw [h4, h6, hrejL e.transfer_id]
      exact h1.symm
    · rw [h5 t het, hrejL t, eventsL, h7 t het]
      have hcache := inv.cache t
      rw [eventsL] at hcache
      exact hcache
  · -- events_eq
    intro t
    by_cases het : t = e.transfer_id
    · subst het
      have hlen : nextArrival s e.transfer_id =
          1 + (firstDedup [] (histFor h e.transfer_id)).length := by
        rw [nextArrival_eq_length inv e.transfer_id, inv.events_eq e.transfer_id,
          attachArrival_length]
        omega
      rw [h6, histFor_append_single, if_pos rfl, firstDedup_append_single,
        if_neg (by simpa using hidh), inv.events_eq e.transfer_id,
        attachArrival_append_single, hlen]
    · rw [eventsL, h7 t het, histFor_append_single, if_neg (fun he' => het he'.symm),
        List.append_nil]
      have hev := inv.events_eq t
      rw [eventsL] at hev
      exact hev
  · -- counter_eq
    intro t
    by_cases het : t = e.transfer_id
    · subst het
      rw [h13, h6, nextArrival_eq_length inv e.transfer_id]
      simp
    · rw [h14 t het, eventsL, h7 t het]
      have hcnt := inv.counter_eq t
      rw [eventsL] at hcnt
      exact hcnt

theorem storeInv_step {h : List TransferEvent} {s : MemoryStore}
    (inv : StoreInv h s) (e : TransferEvent) :
    StoreInv (h ++ [e]) (addEvent e s).2 := by
  by_cases hmem : e.event_id ∈ seenL s e.transfer_id
  · exact storeInv_step_dup inv e hmem
  · exact storeInv_step_accept inv e hmem

theorem storeInv_submitAll_aux :
    ∀ (es h : List TransferEvent) (s : MemoryStore),
      StoreInv h s → StoreInv (h ++ es) (submitAll es s) := by
  intro es
  induction es with
  | nil =>
    intro h s inv
    simpa [submitAll] using inv
  | cons e es ih =>
    intro h s inv
    rw [show h ++ e :: es = (h ++ [e]) ++ es by simp]
    exact ih (h ++ [e]) (addEvent e s).2 (storeInv_step inv e)

/-- The invariant holds for any submission sequence run on the fresh store. -/
theorem storeInv_submitAll (evs : List TransferEvent) :
    StoreInv evs (submitAll evs emptyStore) := by
  have h := storeInv_submitAll_aux evs [] emptyStore storeInv_empty
  simpa using h

/-- C8: after any submission sequence, the derived Transfer's
`rejected_duplicates` holds exactly the event_ids submitted more than once
for that transfer_id — including after later accepted events rebuild the
Transfer. -/
theorem rejected_duplicates_exact (evs : List TransferEvent) (t id : String)
    (h : (mapLookup (submitAll evs emptyStore).transfers t).isSome = true) :
    ∃ tr, mapLookup (submitAll evs emptyStore).transfers t = some tr ∧
      (id ∈ tr.rejected_duplicates ↔
        2 ≤ ((histFor evs t).filter fun e => e.event_id == id).length) := by
  have inv := storeInv_submitAll evs
  obtain ⟨tr, htr⟩ := Option.isSome_iff_exists.1 h
  refine ⟨tr, htr, ?_⟩
  have hc := inv.cache t
  rw [htr] at hc
  obtain ⟨lastEvent, _, htr'⟩ :=
    (computeTransferState_some_iff t (eventsL (submitAll evs emptyStore) t)
      (getRejectedDuplicates (submitAll evs emptyStore) t) tr).1 hc.symm
  have hrd : tr.rejected_duplicates =
      getRejectedDuplicates (submitAll evs emptyStore) t := by
    rw [htr']
  rw [hrd]
  exact inv.rejected_iff t id

/-- Witness for C8: submitting `e1, e1, e2, e1` for one transfer leaves
`rejected_duplicates` holding `e1` (submitted thrice) in the Transfer
rebuilt after `e2` was accepted. -/
theorem rejected_duplicates_exact_witness :
    ∃ tr, mapLookup (submitAll
        [⟨"t1", "e1", "initiated", 1, none, 0⟩, ⟨"t1", "e1", "initiated", 1, none, 0⟩,
         ⟨"t1", "e2", "processing", 2, none, 0⟩, ⟨"t1", "e1", "initiated", 1, none, 0⟩]
        emptyStore).transfers "t1" = some tr ∧
      ("e1" ∈ tr.rejected_duplicates ↔
        2 ≤ ((histFor
          [⟨"t1", "e1", "initiated", 1, none, 0⟩, ⟨"t1", "e1", "initiated", 1, none, 0⟩,
           ⟨"t1", "e2", "processing", 2, none, 0⟩, ⟨"t1", "e1", "initiated", 1, none, 0⟩]
          "t1").filter fun e => e.event_id == "e1").length) :=
  rejected_duplicates_exact
    [⟨"t1", "e1", "initiated", 1, none, 0⟩, ⟨"t1", "e1", "initiated", 1, none, 0⟩,
     ⟨"t1", "e2", "processing", 2, none, 0⟩, ⟨"t1", "e1", "initiated", 1, none, 0⟩]
    "t1" "e1" (by decide)

/-- C9: for an identifier with at least one accepted event, `recompute`
returns a Transfer identical in `current_status`, `is_terminal` and
`event_count` to the cached Transfer last derived by submission, while
advancing the version by 1 and marking the identifier affected. -/
theorem recompute_is_idempotent_rederivation (evs : List TransferEvent) (t : String)
    (h : eventsL (submitAll evs emptyStore) t ≠ []) :
    ∃ tr tr', mapLookup (submitAll evs emptyStore).transfers t = some tr ∧
      (recomputeTransfer t (submitAll evs emptyStore)).1 = some tr' ∧
      tr'.current_status = tr.current_status ∧
      tr'.is_terminal = tr.is_terminal ∧
      tr'.event_count = tr.event_count ∧
      getVersion (recomputeTransfer t (submitAll evs emptyStore)).2 =
        getVersion (submitAll evs emptyStore) + 1 ∧
      t ∈ (recomputeTransfer t (submitAll evs emptyStore)).2.affectedTransferIds := by
  have inv := storeInv_submitAll evs
  obtain ⟨tr', htr', hrec⟩ := recomputeTransfer_of_events h
  have hc := inv.cache t
  rw [htr'] at hc
  refine ⟨tr', tr', hc, ?_, rfl, rfl, rfl, ?_, ?_⟩
  · rw [hrec]
  · rw [hrec]
    rfl
  · rw [hrec]
    exact mem_setAdd_self _ _

/-- Witness for C9: one accepted event, then recompute — identical
load-bearing fields, version moves from 1 to 2. -/
theorem recompute_is_idempotent_rederivation_witness :
    ∃ tr tr', mapLookup (submitAll [⟨"t1", "e1", "settled", 1, none, 0⟩]
        emptyStore).transfers "t1" = some tr ∧
      (recomputeTransfer "t1"
        (submitAll [⟨"t1", "e1", "settled", 1, none, 0⟩] emptyStore)).1 = some tr' ∧
      tr'.current_status = tr.current_status ∧
      tr'.is_terminal = tr.is_terminal ∧
      tr'.event_count = tr.event_count ∧
      getVersion (recomputeTransfer "t1"
        (submitAll [⟨"t1", "e1", "settled", 1, none, 0⟩] emptyStore)).2 =
        getVersion (submitAll [⟨"t1", "e1", "settled", 1, none, 0⟩] emptyStore) + 1 ∧
      "t1" ∈ (recomputeTransfer "t1"
        (submitAll [⟨"t1", "e1", "settled", 1, none, 0⟩] emptyStore)).2.affectedTransferIds :=
  recompute_is_idempotent_rederivation [⟨"t1", "e1", "settled", 1, none, 0⟩] "t1"
    (by decide)

/-- Strict `(timestamp, event_id)` ordering: `a` is strictly earlier than
`b` in the sort order used by `computeTransferState`. -/
def eventKeyLT (a b : TransferEvent) : Prop :=
  a.timestamp < b.timestamp ∨ (a.timestamp = b.timestamp ∧ a.event_id < b.event_id)

instance : DecidableRel eventKeyLT := fun a b => by
  unfold eventKeyLT; infer_instance

theorem eventLE_keyLT_absurd {x y : TransferEvent}
    (h1 : eventLE x y) (h2 : eventKeyLT y x) : False := by
  rcases h1 with h1 | ⟨h1, h1'⟩ <;> rcases h2 with h2 | ⟨h2, h2'⟩
  · exact absurd h1 (not_lt.2 (le_of_lt h2))
  · rw [h2] at h1
    exact lt_irrefl _ h1
  · rw [h1] at h2
    exact lt_irrefl _ h2
  · exact absurd h2' (not_lt.2 h1')

/-- C1: for a non-empty set of events with pairwise-distinct event_ids
submitted for one transfer_id — in any order — the derived Transfer's
`current_status` is the status of the event with the strictly greatest
`(timestamp, event_id)` key, i.e. the timestamp-maximal event with ties
broken by event_id. -/
theorem latest_timestamp_wins (evs : List TransferEvent) (t : String)
    (e : TransferEvent)
    (hall : ∀ x ∈ evs, x.transfer_id = t)
    (hne : evs ≠ [])
    (hnd : (evs.map TransferEvent.event_id).Nodup)
    (he : e ∈ evs)
    (hmax : ∀ x ∈ evs, x ≠ e → eventKeyLT x e) :
    ∃ tr, mapLookup (submitAll evs emptyStore).transfers t = some tr ∧
      tr.current_status = e.status := by
  have inv := storeInv_submitAll evs
  have hhist : histFor evs t = evs :=
    List.filter_eq_self.2 fun x hx => by simp [hall x hx]
  have hded : firstDedup [] evs = evs := firstDedup_eq_self hnd (by simp)
  have hev : eventsL (submitAll evs emptyStore) t = attachArrival 1 evs := by
    rw [inv.events_eq t, hhist, hded]
  have hne' : eventsL (submitAll evs emptyStore) t ≠ [] := by
    rw [hev]
    intro hc
    have hlen := congrArg List.length hc
    rw [attachArrival_length] at hlen
    exact hne (List.length_eq_zero.1 hlen)
  obtain ⟨tr, htr⟩ := @computeTransferState_isSome t
    (eventsL (submitAll evs emptyStore) t)
    (getRejectedDuplicates (submitAll evs emptyStore) t) hne'
  have hc := inv.cache t
  rw [htr] at hc
  refine ⟨tr, hc, ?_⟩
  obtain ⟨lastEvent, hl, htr'⟩ :=
    (computeTransferState_some_iff t (eventsL (submitAll evs emptyStore) t)
      (getRejectedDuplicates (submitAll evs emptyStore) t) tr).1 htr
  have hstat : tr.current_status = lastEvent.status := by rw [htr']
  rw [hstat]
  have hlm : lastEvent ∈ sortEvents (eventsL (submitAll evs emptyStore) t) :=
    mem_of_getLast?_eq_some hl
  have hlm' : lastEvent ∈ attachArrival 1 evs := by
    rw [← hev]
    exact (sortEvents_perm (eventsL (submitAll evs emptyStore) t)).mem_iff.1 hlm
  obtain ⟨y, hy, hly⟩ := mem_attachArrival hlm'
  obtain ⟨x, hx, hxe⟩ := @attachArrival_mem 1 evs e he
  have hxs : x ∈ sortEvents (eventsL (submitAll evs emptyStore) t) :=
    (sortEvents_perm (eventsL (submitAll evs emptyStore) t)).mem_iff.2
      (by rw [hev]; exact hx)
  rcases sorted_rel_getLast?
      (sortEvents_sorted (eventsL (submitAll evs emptyStore) t)) hl x hxs with
    hxeq | hxle
  · rw [← hxeq, hxe]
  · by_cases hye : y = e
    · rw [hly, hye]
    · exfalso
      have hkey : eventKeyLT y e := hmax y hy hye
      apply eventLE_keyLT_absurd hxle
      rw [hly, hxe]
      simpa [eventKeyLT] using hkey

/-- Witness for C1, the spec's example: submitting `settled@3`, then
`initiated@1`, then `processing@2` yields `current_status = "settled"`. -/
theorem latest_timestamp_wins_witness :
    ∃ tr, mapLookup (submitAll
        [⟨"tr1", "e3", "settled", 3, none, 0⟩, ⟨"tr1", "e1", "initiated", 1, none, 0⟩,
         ⟨"tr1", "e2", "processing", 2, none, 0⟩] emptyStore).transfers "tr1" =
      some tr ∧ tr.current_status = "settled" :=
  latest_timestamp_wins
    [⟨"tr1", "e3", "settled", 3, none, 0⟩, ⟨"tr1", "e1", "initiated", 1, none, 0⟩,
     ⟨"tr1", "e2", "processing", 2, none, 0⟩] "tr1"
    ⟨"tr1", "e3", "settled", 3, none, 0⟩
    (by decide) (by decide) (by decide) (by decide) (by decide)
